import Mathlib

/-!
Verification of the CRC-8 macro library (`embedded-crc-macros`).

The repository provides four macro-generated operations and one build-time
code generator:

* `crc8!` expands to a function computing CRC-8 bit-serially
  (`src/lib.rs`, lines 122-140);
* `crc8_lookup_table!` expands to a function computing CRC-8 through a
  256-entry table `LOOKUP_TABLE` indexed by `crc ^ byte`
  (`src/lib.rs`, lines 161-172);
* `crc8_hasher!` and `crc8_hasher_lookup_table!` expand to structs with a
  single `crc: u8` field implementing `core::hash::Hasher` with the same
  two loop bodies (`src/lib.rs`, lines 208-219 and 274-278);
* `build_rs_lookup_table_file_generation!` expands to a build-script
  function that serializes the 256 single-byte checksums to a source file
  (`src/lib.rs`, lines 309-334).

Machine bytes (`u8`) are embedded as `Nat` with explicit `% 256` where the
Rust code wraps; byte-typed parameters carry `< 256` hypotheses where the
Rust type system enforces them.  The potentially panicking table index is
embedded through `Option` (`List` access via `getElem?`), and the only
fallible operation (file output in the build-script generator) is embedded
through an explicit write-outcome environment returning `Except`.
-/

namespace EmbeddedCrc

/-- One shift round of the bitwise engine, from the loop body of `crc8!`:
`crc = if (crc & (1 << 7)) != 0 { (crc << 1) ^ poly } else { crc << 1 }`.
The `u8` left shift discards the high bit, hence the `% 256`; the XOR with
the byte-sized polynomial stays below 256. -/
def shiftStep (poly crc : Nat) : Nat :=
  if crc &&& (1 <<< 7) ≠ 0 then ((crc <<< 1) % 256) ^^^ poly
  else (crc <<< 1) % 256

/-- `n` successive shift rounds (`for _ in 0..8` in the source runs 8). -/
def crc8_rounds (poly : Nat) : Nat → Nat → Nat
  | 0, crc => crc
  | n + 1, crc => crc8_rounds poly n (shiftStep poly crc)

/-- Processing one input byte in `crc8!`: `crc ^= byte` followed by the
eight shift rounds. -/
def crc8_byte_step (poly crc b : Nat) : Nat :=
  crc8_rounds poly 8 (crc ^^^ b)

/-- The function generated by the `crc8!` macro: fold the per-byte step
over the input, starting from the configured initial value. -/
def crc8 (poly initial : Nat) (data : List Nat) : Nat :=
  data.foldl (crc8_byte_step poly) initial

/-- One step of the table-driven engine, from the loop body of
`crc8_lookup_table!`: `crc = LOOKUP_TABLE[(crc ^ *byte) as usize]`.
The unmasked index is embedded as fallible list access, so an
out-of-bounds index (a panic in Rust) becomes `none`. -/
def crc8_lookup_step (table : List Nat) (crc b : Nat) : Option Nat :=
  table[(crc ^^^ b)]?

/-- The function generated by the `crc8_lookup_table!` macro. -/
def crc8_lookup_table (table : List Nat) (initial : Nat) (data : List Nat) :
    Option Nat :=
  data.foldlM (crc8_lookup_step table) initial

/-- The struct generated by `crc8_hasher!`: a single `crc: u8` field. -/
structure Crc8Hasher where
  crc : Nat

/-- `Hasher::new()` for the bitwise hasher: seeds `crc` with the
configured initial value. -/
def Crc8Hasher.new (initial : Nat) : Crc8Hasher :=
  ⟨initial⟩

/-- `Hasher::write` of `crc8_hasher!`: its loop body is the same
XOR-then-8-rounds step as `crc8!`, folded over the written bytes. -/
def Crc8Hasher.write (poly : Nat) (s : Crc8Hasher) (bytes : List Nat) :
    Crc8Hasher :=
  ⟨bytes.foldl (crc8_byte_step poly) s.crc⟩

/-- `Hasher::finish` of `crc8_hasher!`: `self.crc as u64`.  Zero-extension
of a byte is the identity on its numeric value. -/
def Crc8Hasher.finish (s : Crc8Hasher) : Nat :=
  s.crc

/-- The struct generated by `crc8_hasher_lookup_table!`. -/
structure Crc8HasherLookup where
  crc : Nat

/-- `Hasher::new()` for the table-driven hasher. -/
def Crc8HasherLookup.new (initial : Nat) : Crc8HasherLookup :=
  ⟨initial⟩

/-- `Hasher::write` of `crc8_hasher_lookup_table!`: the same table-indexing
loop as `crc8_lookup_table!`, folded over the written bytes. -/
def Crc8HasherLookup.write (table : List Nat) (s : Crc8HasherLookup)
    (bytes : List Nat) : Option Crc8HasherLookup :=
  (bytes.foldlM (crc8_lookup_step table) s.crc).map Crc8HasherLookup.mk

/-- `Hasher::finish` of `crc8_hasher_lookup_table!`: `self.crc as u64`. -/
def Crc8HasherLookup.finish (s : Crc8HasherLookup) : Nat :=
  s.crc

/-- The lookup table the build-script generator produces for a polynomial:
entry `i` is the bitwise checksum of the single byte `i` with initial
value 0 (this is how the repository's `build.rs` example and its test
table `SMBUS_PEC_LOOKUP_TABLE` are produced). -/
def lookup_table_for (poly : Nat) : List Nat :=
  (List.range 256).map fun i => crc8 poly 0 [i]

/-! ### The build-script serializer (`build_rs_lookup_table_file_generation!`)

The generated function creates the output file, then performs a sequence of
`write_all` calls: the header, then for each `i` in `0..256` an optional
line indent, the entry text `format!("0x{:x}, ", checksum(&[i as u8]))`,
an optional newline, and finally the closing `"];\n"`.  Every call
propagates its I/O error with `?` (the last one in tail position).  We
embed the text as the list of chunks in write order, and the I/O as an
environment assigning an optional error to file creation and to each
successive write call. -/

/-- Rust's lowercase hex digit for a value below 16 (as used by `{:x}`). -/
def hexDigitChar (n : Nat) : Char :=
  if n < 10 then Char.ofNat (48 + n) else Char.ofNat (87 + n)

/-- The digits of `format!("{:x}", n)`: minimal-width lowercase
hexadecimal, no zero padding (a single digit `0` for `n = 0`). -/
def hexChars (n : Nat) : List Char :=
  if _h : n < 16 then [hexDigitChar n]
  else hexChars (n / 16) ++ [hexDigitChar (n % 16)]
termination_by n
decreasing_by exact Nat.div_lt_self (by omega) (by omega)

/-- Numeric value of one lowercase hex digit character. -/
def hexDigitVal (c : Char) : Nat :=
  if 97 ≤ c.toNat then c.toNat - 87 else c.toNat - 48

/-- Parse a hex digit string back to its numeric value (used to state that
the serialized text determines the table values). -/
def hexDecode (cs : List Char) : Nat :=
  cs.foldl (fun a c => 16 * a + hexDigitVal c) 0

/-- The numeric value serialized at position `i` of the generated table:
`checksum(&[i as u8])` in the source, with the `as u8` cast embedded as
`% 256`. -/
def serialized_value (checksum : List Nat → Nat) (i : Nat) : Nat :=
  checksum [i % 256]

/-- The header written first:
`concat!("const LOOKUP_TABLE: [", "u8", ";", "256", "] = [\n")`. -/
def lookup_table_header : String :=
  "const LOOKUP_TABLE: [u8;256] = [\n"

/-- The `write_all` chunks of one loop iteration `i`: `"    "` when
`i % 16 == 0`, then `format!("0x{:x}, ", checksum(&[i as u8]))`, then
`"\n"` when `i > 0 && (i + 1) % 16 == 0`. -/
def entry_chunks (checksum : List Nat → Nat) (i : Nat) : List String :=
  (if i % 16 = 0 then ["    "] else []) ++
    ["0x" ++ String.mk (hexChars (serialized_value checksum i)) ++ ", "] ++
      (if 0 < i ∧ (i + 1) % 16 = 0 then ["\n"] else [])

/-- All `write_all` chunks of the generated function, in call order. -/
def build_chunks (checksum : List Nat → Nat) : List String :=
  lookup_table_header :: ((List.range 256).flatMap (entry_chunks checksum) ++ ["];\n"])

/-- Concatenation of sequentially written chunks. -/
def concatChunks : List String → String
  | [] => ""
  | c :: cs => c ++ concatChunks cs

/-- The complete text of the generated `lookup_table.rs` file. -/
def tableFileContent (checksum : List Nat → Nat) : String :=
  concatChunks (build_chunks checksum)

/-- I/O environment for the build-script generator: the outcome of
`File::create` and of the `n`-th `write_all` call (`some e` = fail with
error `e`, `none` = succeed). -/
structure BuildEnv (ε : Type) where
  createResult : Option ε
  writeResult : Nat → Option ε

/-- Run the sequence of `write_all` calls starting at call index `n`,
with `written` the chunks already on disk.  Each failing call returns its
error immediately (`?` in the source); nothing further is written. -/
def run_writes {ε : Type} (wr : Nat → Option ε) :
    Nat → List String → List String → Except ε Unit × List String
  | _, [], written => (Except.ok (), written)
  | n, c :: cs, written =>
    match wr n with
    | some e => (Except.error e, written)
    | none => run_writes wr (n + 1) cs (written ++ [c])

/-- The function generated by `build_rs_lookup_table_file_generation!`:
create the file (propagating a creation error), then perform all writes in
order.  Returns the propagated result together with the chunks actually
written. -/
def write_file {ε : Type} (env : BuildEnv ε) (checksum : List Nat → Nat) :
    Except ε Unit × List String :=
  match env.createResult with
  | some e => (Except.error e, [])
  | none => run_writes env.writeResult 0 (build_chunks checksum) []

/-! ### The specification's bit-serial algorithm (for the refinement claim)

These definitions follow the spec's words, to be compared with the
source-derived `crc8`: "if the high bit of `crc` (bit 7) is set,
`crc = (crc << 1) XOR polynomial`, else `crc = crc << 1`", all operations
on 8-bit unsigned values discarding shifted-out high bits. -/

/-- Modelled from the spec: one shift round, testing bit 7 and wrapping
the whole 8-bit result. -/
def spec_shift (polynomial crc : Nat) : Nat :=
  if crc.testBit 7 then ((crc <<< 1) ^^^ polynomial) % 256
  else (crc <<< 1) % 256

/-- Modelled from the spec: `n` repetitions of the shift round. -/
def spec_rounds (polynomial : Nat) : Nat → Nat → Nat
  | 0, crc => crc
  | n + 1, crc => spec_rounds polynomial n (spec_shift polynomial crc)

/-- Modelled from the spec: start with `crc = initial_value`; for each
byte `b`, `crc ^= b` then eight shift rounds; return the final `crc`. -/
def spec_crc8 (polynomial initial : Nat) (data : List Nat) : Nat :=
  data.foldl (fun crc b => spec_rounds polynomial 8 (crc ^^^ b)) initial

/-! ### Supporting lemmas -/

theorem shiftStep_lt (poly crc : Nat) (hp : poly < 256) :
    shiftStep poly crc < 256 := by
  unfold shiftStep
  split
  · have h1 : (crc <<< 1) % 256 < 2 ^ 8 := Nat.mod_lt _ (by norm_num)
    have h2 : poly < 2 ^ 8 := by simpa using hp
    simpa using Nat.xor_lt_two_pow h1 h2
  · exact Nat.mod_lt _ (by norm_num)

theorem crc8_rounds_lt (poly : Nat) (hp : poly < 256) :
    ∀ (n crc : Nat), crc8_rounds poly (n + 1) crc < 256 := by
  intro n
  induction n with
  | zero =>
    intro crc
    simpa [crc8_rounds] using shiftStep_lt poly crc hp
  | succ m ih =>
    intro crc
    show crc8_rounds poly (m + 1 + 1) crc < 256
    rw [crc8_rounds]
    exact ih (shiftStep poly crc)

theorem crc8_byte_step_lt (poly crc b : Nat) (hp : poly < 256) :
    crc8_byte_step poly crc b < 256 :=
  crc8_rounds_lt poly hp 7 (crc ^^^ b)

theorem crc8_lt (poly : Nat) (data : List Nat) (hp : poly < 256) :
    ∀ initial : Nat, initial < 256 → crc8 poly initial data < 256 := by
  induction data with
  | nil => intro initial hi; simpa [crc8] using hi
  | cons b d ih =>
    intro initial hi
    have h1 : crc8 poly initial (b :: d)
        = crc8 poly (crc8_byte_step poly initial b) d := by
      simp [crc8]
    rw [h1]
    exact ih _ (crc8_byte_step_lt poly initial b hp)

theorem lookup_table_for_get (poly i : Nat) (hi : i < 256) :
    (lookup_table_for poly)[i]? = some (crc8 poly 0 [i]) := by
  simp [lookup_table_for, List.getElem?_map, List.getElem?_range hi]

theorem crc8_byte_step_eq_single (poly crc b : Nat) :
    crc8_byte_step poly crc b = crc8 poly 0 [crc ^^^ b] := by
  simp [crc8, crc8_byte_step, Nat.zero_xor]

theorem xor_lt_256 {a b : Nat} (ha : a < 256) (hb : b < 256) :
    a ^^^ b < 256 := by
  have h8 : (256 : Nat) = 2 ^ 8 := by norm_num
  rw [h8] at ha hb ⊢
  exact Nat.xor_lt_two_pow ha hb

theorem crc8_lookup_table_eq (poly : Nat) (hp : poly < 256) :
    ∀ (data : List Nat) (crc : Nat), crc < 256 → (∀ b ∈ data, b < 256) →
      crc8_lookup_table (lookup_table_for poly) crc data
        = some (crc8 poly crc data) := by
  intro data
  induction data with
  | nil => intro crc _ _; rfl
  | cons b d ih =>
    intro crc hc hb
    have hb0 : b < 256 := hb b (List.mem_cons_self b d)
    have hstep : crc8_lookup_step (lookup_table_for poly) crc b
        = some (crc8_byte_step poly crc b) := by
      rw [crc8_lookup_step, lookup_table_for_get poly _ (xor_lt_256 hc hb0),
        crc8_byte_step_eq_single]
    have hrest : ∀ x ∈ d, x < 256 := fun x hx => hb x (List.mem_cons_of_mem b hx)
    calc crc8_lookup_table (lookup_table_for poly) crc (b :: d)
        = crc8_lookup_step (lookup_table_for poly) crc b >>= fun c =>
            crc8_lookup_table (lookup_table_for poly) c d := by
          simp [crc8_lookup_table]
      _ = crc8_lookup_table (lookup_table_for poly)
            (crc8_byte_step poly crc b) d := by
          rw [hstep]; rfl
      _ = some (crc8 poly (crc8_byte_step poly crc b) d) :=
          ih _ (crc8_byte_step_lt poly crc b hp) hrest
      _ = some (crc8 poly crc (b :: d)) := by simp [crc8]

/-! ### Claim theorems -/

/-- C1: for every byte-sized polynomial and initial value and every byte
sequence, the table-driven engine reading the 256-entry table whose entry
`i` is the bitwise engine (same polynomial, initial value 0) applied to
`[i]` computes exactly the bitwise engine's checksum (and in particular
never hits an out-of-bounds index). -/
theorem C1_bitwise_vs_table (poly initial : Nat) (data : List Nat)
    (hp : poly < 256) (hi : initial < 256) (hd : ∀ b ∈ data, b < 256) :
    crc8_lookup_table (lookup_table_for poly) initial data
      = some (crc8 poly initial data) :=
  crc8_lookup_table_eq poly hp data initial hi hd

/-- Witness for C1 at the SMBus PEC parameters and the repository's own
test vector. -/
theorem C1_witness :
    (7 : Nat) < 256 ∧ (0 : Nat) < 256 ∧
      (∀ b ∈ [180, 6, 171, 205], b < 256) ∧
      crc8_lookup_table (lookup_table_for 7) 0 [180, 6, 171, 205]
        = some (crc8 7 0 [180, 6, 171, 205]) :=
  ⟨by decide, by decide, by decide,
    C1_bitwise_vs_table 7 0 [180, 6, 171, 205] (by decide) (by decide)
      (by decide)⟩

theorem and_128_ne_zero_iff (crc : Nat) :
    crc &&& (1 <<< 7) ≠ 0 ↔ crc.testBit 7 = true := by
  have h : (1 <<< 7 : Nat) = 2 ^ 7 := by norm_num [Nat.shiftLeft_eq]
  rw [h, Nat.and_two_pow]
  cases h2 : crc.testBit 7 <;> simp [h2]

theorem xor_mod_256 (a poly : Nat) (hp : poly < 256) :
    (a ^^^ poly) % 256 = (a % 256) ^^^ poly := by
  have h : (256 : Nat) = 2 ^ 8 := by norm_num
  rw [h, ← Nat.and_pow_two_sub_one_eq_mod, ← Nat.and_pow_two_sub_one_eq_mod,
    Nat.and_xor_distrib_right]
  congr 1
  rw [Nat.and_pow_two_sub_one_eq_mod]
  exact Nat.mod_eq_of_lt (h ▸ hp)

theorem spec_shift_eq (polynomial crc : Nat) (hp : polynomial < 256) :
    spec_shift polynomial crc = shiftStep polynomial crc := by
  by_cases h : crc.testBit 7 = true
  · simp only [spec_shift, shiftStep, if_pos h,
      if_pos ((and_128_ne_zero_iff crc).mpr h)]
    exact xor_mod_256 _ _ hp
  · simp only [spec_shift, shiftStep, if_neg h,
      if_neg (fun hc => h ((and_128_ne_zero_iff crc).mp hc))]

theorem spec_rounds_eq (polynomial : Nat) (hp : polynomial < 256) :
    ∀ (n crc : Nat), spec_rounds polynomial n crc = crc8_rounds polynomial n crc := by
  intro n
  induction n with
  | zero => intro crc; rfl
  | succ m ih =>
    intro crc
    rw [spec_rounds, crc8_rounds, spec_shift_eq _ _ hp]
    exact ih _

/-- C2: the function generated by `crc8!` computes exactly the spec's
bit-serial CRC-8 algorithm (initialize with the initial value, XOR each
byte in, eight conditional shift-XOR rounds on wrapping 8-bit values,
return the final accumulator), for every byte-sized polynomial. -/
theorem C2_matches_spec_algorithm (polynomial initial : Nat)
    (data : List Nat) (hp : polynomial < 256) :
    spec_crc8 polynomial initial data = crc8 polynomial initial data := by
  unfold spec_crc8 crc8
  congr 1
  funext crc b
  show spec_rounds polynomial 8 (crc ^^^ b) = crc8_byte_step polynomial crc b
  rw [crc8_byte_step]
  exact spec_rounds_eq polynomial hp 8 (crc ^^^ b)

/-- Witness for C2 at the SMBus PEC parameters on a test vector. -/
theorem C2_witness :
    (7 : Nat) < 256 ∧
      spec_crc8 7 0 [180, 6, 171, 205] = crc8 7 0 [180, 6, 171, 205] :=
  ⟨by decide, C2_matches_spec_algorithm 7 0 [180, 6, 171, 205] (by decide)⟩

/-- C5: applying either engine to the empty byte sequence returns the
initial value unchanged (the table-driven engine succeeds with it, for
any table). -/
theorem C5_empty_input_identity (poly initial : Nat) (table : List Nat) :
    crc8 poly initial [] = initial ∧
      crc8_lookup_table table initial [] = some initial :=
  ⟨rfl, rfl⟩

set_option maxRecDepth 100000 in
/-- C6: the five SMBus PEC test vectors (polynomial 7, initial value 0)
produce checksums 95, 102, 212, 86, 233, identically for the bitwise
engine, the table-driven engine reading the generated table, and both
incremental hasher forms. -/
theorem C6_smbus_pec_vectors :
    (crc8 7 0 [180, 6, 171, 205] = 95 ∧
      crc8_lookup_table (lookup_table_for 7) 0 [180, 6, 171, 205] = some 95 ∧
      (Crc8Hasher.write 7 (Crc8Hasher.new 0) [180, 6, 171, 205]).finish = 95 ∧
      (Crc8HasherLookup.write (lookup_table_for 7) (Crc8HasherLookup.new 0)
        [180, 6, 171, 205]).map Crc8HasherLookup.finish = some 95) ∧
    (crc8 7 0 [180, 6, 181, 38, 58] = 102 ∧
      crc8_lookup_table (lookup_table_for 7) 0 [180, 6, 181, 38, 58] = some 102 ∧
      (Crc8Hasher.write 7 (Crc8Hasher.new 0) [180, 6, 181, 38, 58]).finish = 102 ∧
      (Crc8HasherLookup.write (lookup_table_for 7) (Crc8HasherLookup.new 0)
        [180, 6, 181, 38, 58]).map Crc8HasherLookup.finish = some 102) ∧
    (crc8 7 0 [180, 6, 181, 107, 58] = 212 ∧
      crc8_lookup_table (lookup_table_for 7) 0 [180, 6, 181, 107, 58] = some 212 ∧
      (Crc8Hasher.write 7 (Crc8Hasher.new 0) [180, 6, 181, 107, 58]).finish = 212 ∧
      (Crc8HasherLookup.write (lookup_table_for 7) (Crc8HasherLookup.new 0)
        [180, 6, 181, 107, 58]).map Crc8HasherLookup.finish = some 212) ∧
    (crc8 7 0 [180, 6, 181, 97, 58] = 86 ∧
      crc8_lookup_table (lookup_table_for 7) 0 [180, 6, 181, 97, 58] = some 86 ∧
      (Crc8Hasher.write 7 (Crc8Hasher.new 0) [180, 6, 181, 97, 58]).finish = 86 ∧
      (Crc8HasherLookup.write (lookup_table_for 7) (Crc8HasherLookup.new 0)
        [180, 6, 181, 97, 58]).map Crc8HasherLookup.finish = some 86) ∧
    (crc8 7 0 [180, 6, 181, 225, 57] = 233 ∧
      crc8_lookup_table (lookup_table_for 7) 0 [180, 6, 181, 225, 57] = some 233 ∧
      (Crc8Hasher.write 7 (Crc8Hasher.new 0) [180, 6, 181, 225, 57]).finish = 233 ∧
      (Crc8HasherLookup.write (lookup_table_for 7) (Crc8HasherLookup.new 0)
        [180, 6, 181, 225, 57]).map Crc8HasherLookup.finish = some 233) := by
  decide

theorem crc8_hasher_write_chunks (poly : Nat) :
    ∀ (chunks : List (List Nat)) (s : Crc8Hasher),
      chunks.foldl (Crc8Hasher.write poly) s
        = Crc8Hasher.write poly s chunks.flatten := by
  intro chunks
  induction chunks with
  | nil => intro s; rfl
  | cons c cs ih =>
    intro s
    rw [List.foldl_cons, ih, List.flatten_cons]
    simp [Crc8Hasher.write, List.foldl_append]

theorem crc8_hasher_lookup_write_chunks (table : List Nat) :
    ∀ (chunks : List (List Nat)) (s : Crc8HasherLookup),
      chunks.foldlM (Crc8HasherLookup.write table) s
        = Crc8HasherLookup.write table s chunks.flatten := by
  intro chunks
  induction chunks with
  | nil => intro s; rfl
  | cons c cs ih =>
    intro s
    rw [List.foldlM_cons, List.flatten_cons]
    cases hfc : c.foldlM (crc8_lookup_step table) s.crc with
    | none => simp [Crc8HasherLookup.write, hfc, List.foldlM_append]
    | some x => simp [Crc8HasherLookup.write, hfc, List.foldlM_append, ih]

/-- C4: feeding a byte sequence in any chunking through successive `write`
calls and then `finish` gives the same result as one `write` of the whole
sequence, for both the bitwise and the table-driven hasher. -/
theorem C4_incremental_equals_batch (poly initial : Nat) (table : List Nat)
    (chunks : List (List Nat)) :
    (chunks.foldl (Crc8Hasher.write poly) (Crc8Hasher.new initial)).finish
      = (Crc8Hasher.write poly (Crc8Hasher.new initial) chunks.flatten).finish ∧
    (chunks.foldlM (Crc8HasherLookup.write table)
        (Crc8HasherLookup.new initial)).map Crc8HasherLookup.finish
      = (Crc8HasherLookup.write table (Crc8HasherLookup.new initial)
          chunks.flatten).map Crc8HasherLookup.finish := by
  constructor
  · rw [crc8_hasher_write_chunks]
  · rw [crc8_hasher_lookup_write_chunks]

theorem crc8_lookup_foldlM_isSome (table : List Nat)
    (hlen : table.length = 256) (hentries : ∀ x ∈ table, x < 256) :
    ∀ (data : List Nat) (crc : Nat), crc < 256 →
      (∀ b ∈ data, b < 256) →
      ∃ r, data.foldlM (crc8_lookup_step table) crc = some r ∧ r < 256 := by
  intro data
  induction data with
  | nil => intro crc hc _; exact ⟨crc, rfl, hc⟩
  | cons b d ih =>
    intro crc hc hb
    have hb0 : b < 256 := hb b (List.mem_cons_self b d)
    have hidx : crc ^^^ b < table.length := by
      rw [hlen]; exact xor_lt_256 hc hb0
    have hget : table[(crc ^^^ b)]? = some (table.get ⟨crc ^^^ b, hidx⟩) := by
      simp [List.getElem?_eq_getElem hidx]
    have htlt : table.get ⟨crc ^^^ b, hidx⟩ < 256 :=
      hentries _ (table.get_mem _ _)
    obtain ⟨r, hr, hrlt⟩ :=
      ih (table.get ⟨crc ^^^ b, hidx⟩) htlt
        (fun x hx => hb x (List.mem_cons_of_mem b hx))
    refine ⟨r, ?_, hrlt⟩
    rw [List.foldlM_cons]
    show (crc8_lookup_step table crc b >>= fun c =>
      d.foldlM (crc8_lookup_step table) c) = some r
    rw [crc8_lookup_step, hget]
    simpa using hr

/-- C9: with a 256-entry table of byte values, a byte initial value and
byte inputs, the table index `crc XOR byte` is always in bounds, so the
table-driven engine and the table-driven hasher never fail (never panic)
on any input sequence. -/
theorem C9_table_access_total (table : List Nat) (initial : Nat)
    (data : List Nat) (hlen : table.length = 256)
    (hentries : ∀ x ∈ table, x < 256) (hi : initial < 256)
    (hd : ∀ b ∈ data, b < 256) :
    (∀ crc b : Nat, crc < 256 → b < 256 → crc ^^^ b < table.length) ∧
      (crc8_lookup_table table initial data).isSome = true ∧
      (Crc8HasherLookup.write table (Crc8HasherLookup.new initial)
        data).isSome = true := by
  obtain ⟨r, hr, _⟩ :=
    crc8_lookup_foldlM_isSome table hlen hentries data initial hi hd
  refine ⟨fun crc b hc hb => ?_, ?_, ?_⟩
  · rw [hlen]; exact xor_lt_256 hc hb
  · rw [crc8_lookup_table, hr]; rfl
  · rw [Crc8HasherLookup.write]
    rw [show (Crc8HasherLookup.new initial).crc = initial from rfl, hr]
    rfl

set_option maxRecDepth 100000 in
/-- Witness for C9 with the generated SMBus PEC table and a concrete
message. -/
theorem C9_witness :
    (lookup_table_for 7).length = 256 ∧
      (∀ x ∈ lookup_table_for 7, x < 256) ∧ (0 : Nat) < 256 ∧
      (∀ b ∈ [180, 6], b < 256) ∧
      (crc8_lookup_table (lookup_table_for 7) 0 [180, 6]).isSome = true :=
  ⟨by decide, by decide, by decide, by decide,
    (C9_table_access_total (lookup_table_for 7) 0 [180, 6] (by decide)
      (by decide) (by decide) (by decide)).2.1⟩

theorem shiftStep_zero_poly (crc : Nat) :
    shiftStep 0 crc = (crc <<< 1) % 256 := by
  unfold shiftStep
  split <;> simp

theorem crc8_rounds_zero_poly :
    ∀ (n crc : Nat), crc8_rounds 0 (n + 1) crc = (crc <<< (n + 1)) % 256 := by
  intro n
  induction n with
  | zero => intro crc; rw [crc8_rounds, crc8_rounds, shiftStep_zero_poly]
  | succ m ih =>
    intro crc
    show crc8_rounds 0 (m + 1 + 1) crc = crc <<< (m + 1 + 1) % 256
    rw [crc8_rounds, ih, shiftStep_zero_poly]
    rw [Nat.shiftLeft_eq, Nat.shiftLeft_eq, Nat.shiftLeft_eq, Nat.mod_mul_mod]
    congr 1
    rw [Nat.mul_assoc, ← Nat.pow_add]
    have hexp : 1 + (m + 1) = m + 1 + 1 := by omega
    rw [hexp]

theorem crc8_byte_step_zero_poly (crc b : Nat) :
    crc8_byte_step 0 crc b = 0 := by
  rw [crc8_byte_step, show (8 : Nat) = 7 + 1 from rfl, crc8_rounds_zero_poly]
  rw [Nat.shiftLeft_eq]
  norm_num

theorem crc8_zero_poly :
    ∀ (d : List Nat) (c : Nat), d ≠ [] → crc8 0 c d = 0 := by
  intro d
  induction d with
  | nil => intro c h; exact absurd rfl h
  | cons b rest ih =>
    intro c _
    have h1 : crc8 0 c (b :: rest)
        = crc8 0 (crc8_byte_step 0 c b) rest := by simp [crc8]
    rw [h1, crc8_byte_step_zero_poly]
    cases rest with
    | nil => rfl
    | cons x xs => exact ih _ (by simp)

/-- C10 counterexample: with polynomial 0 the engine returns the initial
value 0 also on the non-empty input `[0]`, so it is false that the engine
returns V only for the empty sequence for every initial value V. -/
theorem C10_counterexample :
    ¬ ∀ (V : Nat) (d : List Nat), crc8 0 V d = V → d = [] := by
  intro h
  exact absurd (h 0 [0] (by decide)) (by decide)

/-- C10 (amended): for polynomial 0, the bitwise engine returns 0 for
every non-empty input sequence, returns V for the empty sequence, and
when V is nonzero it returns V only for the empty sequence. -/
theorem C10_zero_polynomial (V : Nat) (d : List Nat) :
    (d ≠ [] → crc8 0 V d = 0) ∧ crc8 0 V [] = V ∧
      (V ≠ 0 → crc8 0 V d = V → d = []) := by
  refine ⟨fun h => crc8_zero_poly d V h, rfl, fun hV heq => ?_⟩
  by_contra hne
  have h0 : crc8 0 V d = 0 := crc8_zero_poly d V hne
  rw [heq] at h0
  exact hV h0

/-- Witness for C10 at initial value 5 on the input `[1]` and on the
empty input. -/
theorem C10_witness :
    (([1] : List Nat) ≠ []) ∧ crc8 0 5 [1] = 0 ∧ crc8 0 5 [] = 5 ∧
      (([] : List Nat) = []) :=
  ⟨by decide, (C10_zero_polynomial 5 [1]).1 (by decide),
    (C10_zero_polynomial 5 []).2.1,
    (C10_zero_polynomial 5 []).2.2 (by decide) rfl⟩

theorem hexDigitVal_hexDigitChar : ∀ n < 16, hexDigitVal (hexDigitChar n) = n := by
  decide

theorem hexDecode_append (cs : List Char) (c : Char) :
    hexDecode (cs ++ [c]) = 16 * hexDecode cs + hexDigitVal c := by
  simp [hexDecode, List.foldl_append]

theorem hexChars_of_lt {n : Nat} (h : n < 16) :
    hexChars n = [hexDigitChar n] := by
  rw [hexChars, dif_pos h]

theorem hexChars_of_ge {n : Nat} (h : ¬ n < 16) :
    hexChars n = hexChars (n / 16) ++ [hexDigitChar (n % 16)] := by
  rw [hexChars, dif_neg h]

theorem hexDecode_hexChars (n : Nat) : hexDecode (hexChars n) = n := by
  induction n using Nat.strong_induction_on with
  | _ n ih =>
    by_cases h : n < 16
    · rw [hexChars_of_lt h]
      simpa [hexDecode] using hexDigitVal_hexDigitChar n h
    · rw [hexChars_of_ge h, hexDecode_append]
      rw [ih (n / 16) (Nat.div_lt_self (by omega) (by omega))]
      rw [hexDigitVal_hexDigitChar (n % 16) (Nat.mod_lt _ (by omega))]
      omega

theorem hexChars_length_two {n : Nat} (h16 : 16 ≤ n) (h256 : n < 256) :
    (hexChars n).length = 2 := by
  rw [hexChars_of_ge (by omega), hexChars_of_lt (by omega)]
  rfl

/-- C3: the numeric value serialized at position `i` of the generated
table text is the supplied checksum function applied to the single-byte
sequence `[i]` (and decoding the rendered hex digits gives that value
back); in particular, with the bitwise engine at initial value 0 the
serialized entry `i` equals `crc8(poly, 0, [i])`. -/
theorem C3_table_entries (checksum : List Nat → Nat) (poly i : Nat)
    (hi : i < 256) :
    serialized_value checksum i = checksum [i] ∧
      hexDecode (hexChars (serialized_value checksum i)) = checksum [i] ∧
      serialized_value (crc8 poly 0) i = crc8 poly 0 [i] := by
  have hmod : i % 256 = i := Nat.mod_eq_of_lt hi
  refine ⟨?_, ?_, ?_⟩ <;>
    simp [serialized_value, hmod, hexDecode_hexChars]

/-- Witness for C3 at position 5 of the SMBus PEC table. -/
theorem C3_witness :
    (5 : Nat) < 256 ∧ serialized_value (crc8 7 0) 5 = crc8 7 0 [5] :=
  ⟨by decide, (C3_table_entries (crc8 7 0) 7 5 (by decide)).1⟩

theorem entry_chunks_eq (checksum : List Nat → Nat) (i : Nat)
    (hi : i < 256) :
    entry_chunks checksum i
      = (if i % 16 = 0 then ["    "] else []) ++
          ["0x" ++ String.mk (hexChars (checksum [i])) ++ ", "] ++
            (if 0 < i ∧ (i + 1) % 16 = 0 then ["\n"] else []) := by
  rw [entry_chunks, serialized_value, Nat.mod_eq_of_lt hi]

theorem build_chunks_getLast (checksum : List Nat → Nat) :
    (build_chunks checksum).getLast? = some "];\n" := by
  rw [build_chunks]
  exact List.getLast?_concat
    (lookup_table_header :: (List.range 256).flatMap (entry_chunks checksum))

set_option maxRecDepth 100000 in
/-- C7 counterexample: for the repository's own SMBus PEC configuration
(polynomial 7, initial value 0) the table entry at position 0 has value 0
and is rendered by `format!("0x{:x}, ", ..)` as the single-digit literal
`0x0`, so not every value is rendered with two hex digits. -/
theorem C7_counterexample :
    ¬ ∀ i, i < 256 → (hexChars (serialized_value (crc8 7 0) i)).length = 2 := by
  intro h
  have h0 := h 0 (by norm_num)
  have hval : serialized_value (crc8 7 0) 0 = 0 := by decide
  rw [hval, hexChars_of_lt (by norm_num)] at h0
  simp at h0

/-- C7 (amended): the generated text renders every one of the 256 table
values as a minimal-width lowercase hexadecimal literal of one or two
digits — two digits exactly when the value is at least 16, one digit
otherwise, with no zero padding — 16 values per line (an indent chunk
starts every 16th entry and a newline chunk closes it), and the text is
terminated with the closing bracket and statement terminator. -/
theorem C7_serialization_format (checksum : List Nat → Nat) (i : Nat)
    (hi : i < 256) (hv : checksum [i] < 256) :
    entry_chunks checksum i
      = (if i % 16 = 0 then ["    "] else []) ++
          ["0x" ++ String.mk (hexChars (checksum [i])) ++ ", "] ++
            (if 0 < i ∧ (i + 1) % 16 = 0 then ["\n"] else []) ∧
      1 ≤ (hexChars (checksum [i])).length ∧
      (hexChars (checksum [i])).length ≤ 2 ∧
      ((hexChars (checksum [i])).length = 2 ↔ 16 ≤ checksum [i]) ∧
      (build_chunks checksum).getLast? = some "];\n" ∧
      (build_chunks checksum).head? = some lookup_table_header := by
  refine ⟨entry_chunks_eq checksum i hi, ?_, ?_, ?_,
    build_chunks_getLast checksum, rfl⟩
  · by_cases h16 : checksum [i] < 16
    · rw [hexChars_of_lt h16]; simp
    · rw [hexChars_length_two (by omega) hv]; omega
  · by_cases h16 : checksum [i] < 16
    · rw [hexChars_of_lt h16]; simp
    · rw [hexChars_length_two (by omega) hv]
  · by_cases h16 : checksum [i] < 16
    · rw [hexChars_of_lt h16]
      simp only [List.length_cons, List.length_nil]
      omega
    · rw [hexChars_length_two (by omega) hv]
      omega

set_option maxRecDepth 100000 in
/-- Witness for C7's amended statement at position 0 of the SMBus PEC
table (value 0, one digit). -/
theorem C7_witness :
    (0 : Nat) < 256 ∧ crc8 7 0 [0] < 256 ∧
      1 ≤ (hexChars (crc8 7 0 [0])).length ∧
      (hexChars (crc8 7 0 [0])).length ≤ 2 :=
  ⟨by decide, by decide,
    (C7_serialization_format (crc8 7 0) 0 (by decide) (by decide)).2.1,
    (C7_serialization_format (crc8 7 0) 0 (by decide) (by decide)).2.2.1⟩

theorem run_writes_ok {ε : Type} (wr : Nat → Option ε) :
    ∀ (cs : List String) (n : Nat) (written : List String),
      (∀ j, j < cs.length → wr (n + j) = none) →
      run_writes wr n cs written = (Except.ok (), written ++ cs) := by
  intro cs
  induction cs with
  | nil => intro n written _; simp [run_writes]
  | cons c cs2 ih =>
    intro n written hall
    have h0 : wr n = none := by simpa using hall 0 (by simp)
    rw [run_writes, h0]
    rw [ih (n + 1) (written ++ [c]) (fun j hj => by
      have h2 : n + (j + 1) = n + 1 + j := by omega
      have h3 := hall (j + 1) (by simp only [List.length_cons]; omega)
      rwa [h2] at h3)]
    simp

theorem run_writes_err {ε : Type} (wr : Nat → Option ε) :
    ∀ (cs : List String) (n : Nat) (written : List String) (k : Nat) (e : ε),
      k < cs.length → wr (n + k) = some e →
      (∀ j, j < k → wr (n + j) = none) →
      run_writes wr n cs written = (Except.error e, written ++ cs.take k) := by
  intro cs
  induction cs with
  | nil => intro n written k e hk; simp at hk
  | cons c cs2 ih =>
    intro n written k e hk hke hprev
    cases k with
    | zero =>
      have h0 : wr n = some e := by simpa using hke
      rw [run_writes, h0]
      simp
    | succ m =>
      have h0 : wr n = none := by simpa using hprev 0 (Nat.succ_pos m)
      rw [run_writes, h0]
      rw [ih (n + 1) (written ++ [c]) m e
        (by simp only [List.length_cons] at hk; omega)
        (by
          have h2 : n + (m + 1) = n + 1 + m := by omega
          rwa [h2] at hke)
        (fun j hj => by
          have h2 : n + (j + 1) = n + 1 + j := by omega
          have h3 := hprev (j + 1) (by omega)
          rwa [h2] at h3)]
      simp

/-- C8: the table-generation function returns an I/O error to its caller
exactly when file creation or some write fails: a creation error is
returned with nothing written; if every write succeeds it returns unit
with exactly the intended chunks written; if the `k`-th write fails with
error `e` (all earlier ones succeeding) that same error is returned and
only the first `k` chunks were written — no retry and no fallback output.
And checksum computation has no error path: the table-driven engine (the
one embedded operation that could fail) always succeeds on byte-sized
inputs with a 256-entry byte table. -/
theorem C8_error_propagation {ε : Type} (env : BuildEnv ε)
    (checksum : List Nat → Nat) (e : ε) (k : Nat) (table : List Nat)
    (initial : Nat) (data : List Nat) :
    (env.createResult = some e →
      write_file env checksum = (Except.error e, [])) ∧
    (env.createResult = none →
      (∀ n, n < (build_chunks checksum).length → env.writeResult n = none) →
      write_file env checksum = (Except.ok (), build_chunks checksum)) ∧
    (env.createResult = none → k < (build_chunks checksum).length →
      env.writeResult k = some e → (∀ n, n < k → env.writeResult n = none) →
      write_file env checksum
        = (Except.error e, (build_chunks checksum).take k)) ∧
    (table.length = 256 → (∀ x ∈ table, x < 256) → initial < 256 →
      (∀ b ∈ data, b < 256) →
      (crc8_lookup_table table initial data).isSome = true) := by
  refine ⟨fun h => ?_, fun h hall => ?_, fun h hk hke hprev => ?_,
    fun hlen hentries hi hd => ?_⟩
  · rw [write_file, h]
  · rw [write_file, h]
    rw [run_writes_ok env.writeResult (build_chunks checksum) 0 []
      (fun j hj => by simpa using hall j hj)]
    simp
  · rw [write_file, h]
    rw [run_writes_err env.writeResult (build_chunks checksum) 0 [] k e hk
      (by simpa using hke) (fun j hj => by simpa using hprev j hj)]
    simp
  · obtain ⟨r, hr, _⟩ :=
      crc8_lookup_foldlM_isSome table hlen hentries data initial hi hd
    rw [crc8_lookup_table, hr]
    rfl

set_option maxRecDepth 100000 in
/-- Witness for C8: an environment whose third write call fails with
error code 7 makes the generator return exactly that error after writing
exactly the first two chunks. -/
theorem C8_witness :
    ((⟨none, fun n => if n = 2 then some 7 else none⟩ : BuildEnv Nat).createResult
        = none) ∧
      2 < (build_chunks (fun _ => 0)).length ∧
      ((⟨none, fun n => if n = 2 then some 7 else none⟩ : BuildEnv Nat).writeResult 2
        = some 7) ∧
      (∀ n, n < 2 →
        ((⟨none, fun n => if n = 2 then some 7 else none⟩ : BuildEnv Nat).writeResult n
          = none)) ∧
      write_file (⟨none, fun n => if n = 2 then some 7 else none⟩ : BuildEnv Nat)
          (fun _ => 0)
        = (Except.error 7, (build_chunks (fun _ => 0)).take 2) :=
  ⟨rfl, by decide, by decide, by decide,
    (C8_error_propagation
        (⟨none, fun n => if n = 2 then some 7 else none⟩ : BuildEnv Nat)
        (fun _ => 0) 7 2 [] 0 []).2.2.1 rfl (by decide) (by decide)
      (by decide)⟩

end EmbeddedCrc
